import Mathlib

/-!
# OneNote-to-Markdown Exporter — verification of the core pipeline

Shallow embedding of `onenote_export.py` (the only source file of the
repository): the filename sanitizer, the paginated fetcher `fetch_json`,
the media downloader `download_file`, the page content processor
`process_page_content`, and the per-page resume decision of `main`'s
walker loop.

Modelling conventions:
* The network is an oracle: a finite list of responses, consumed one per
  `requests.get` call; an exhausted list behaves as a transport error.
* `time.sleep` is modelled by recording the slept duration in a trace.
* Python exceptions that escape a function are modelled with `Except`;
  `int()` applied to a header value is modelled by a decimal-digit parse
  (Python's `int` also accepts signs and surrounding whitespace, which
  no claim depends on).
* The filesystem is a pair of association lists: files (path ↦ content)
  and directories.  `BeautifulSoup` documents are modelled structurally
  as lists of elements (text runs and media tags); `markdownify` is
  modelled as a structural rendering that keeps text runs and media
  source URLs verbatim.
-/

namespace OneNote

/-! ## String helpers (Python `in`, `startswith`) -/

/-- Predicate `startsWithL l p`: the char list `l` starts with the pattern `p`
(Python `str.startswith`). -/
def startsWithL : List Char → List Char → Bool
  | _, [] => true
  | [], _ :: _ => false
  | c :: cs, p :: ps => c = p && startsWithL cs ps

/-- Predicate `containsSub l p`: the pattern `p` occurs as a contiguous substring
of `l` (Python `p in l`). -/
def containsSub : List Char → List Char → Bool
  | [], p => startsWithL [] p
  | c :: cs, p => startsWithL (c :: cs) p || containsSub cs p

/-- Python `pat in s` on strings. -/
def strContains (s pat : String) : Bool :=
  containsSub s.data pat.data

/-- Python `s.startswith(pat)` on strings. -/
def strStartsWith (s pat : String) : Bool :=
  startsWithL s.data pat.data

/-! ## Sanitizer (`sanitize_filename`, line 80-82)

`re.sub(r'[\\/*?:"<>|]', '_', name).strip()` -/

/-- The reserved character class of the regex `[\\/*?:"<>|]`. -/
def reservedChar (c : Char) : Bool :=
  c = '\\' || c = '/' || c = '*' || c = '?' || c = ':' ||
  c = '"' || c = '<' || c = '>' || c = '|'

/-- One character of the `re.sub` replacement. -/
def subChar (c : Char) : Char :=
  if reservedChar c then '_' else c

/-- Whitespace stripped by Python `str.strip()` (the ASCII cases; the
unicode ones play no role in any claim). -/
def isPySpace (c : Char) : Bool :=
  c = ' ' || c = '\t' || c = '\n' || c = '\r' || c = '\x0b' || c = '\x0c'

/-- Python `str.strip()`: drop leading and trailing whitespace. -/
def trimChars (l : List Char) : List Char :=
  ((l.dropWhile isPySpace).reverse.dropWhile isPySpace).reverse

/-- The function `sanitize_filename` (line 80-82): replace each reserved character
with `_`, then strip surrounding whitespace.  A total Lean function, so
totality of the Python original (which can raise nothing) is inherent. -/
def sanitize_filename (name : String) : String :=
  ⟨trimChars (name.data.map subChar)⟩

/-! ### Sanitizer lemmas -/

theorem mem_dropWhile {α : Type} (p : α → Bool) (l : List α) (x : α)
    (h : x ∈ l.dropWhile p) : x ∈ l := by
  induction l with
  | nil => simp [List.dropWhile] at h
  | cons a t ih =>
    by_cases hp : p a
    · simp only [List.dropWhile, hp] at h
      exact List.mem_cons_of_mem a (ih h)
    · simp only [List.dropWhile, Bool.not_eq_true] at h hp
      rw [hp] at h
      exact h

theorem dropWhile_head_false {α : Type} (p : α → Bool) (l : List α) (x : α)
    (h : (l.dropWhile p).head? = some x) : p x = false := by
  induction l with
  | nil => simp [List.dropWhile] at h
  | cons a t ih =>
    by_cases hp : p a
    · simp only [List.dropWhile, hp] at h
      exact ih h
    · simp only [List.dropWhile, Bool.not_eq_true] at hp
      rw [List.dropWhile_cons, hp] at h
      simp only [Bool.false_eq_true, if_false, List.head?_cons, Option.some.injEq] at h
      rw [← h]
      exact hp

theorem dropWhile_eq_self_of {α : Type} (p : α → Bool) (l : List α)
    (h : ∀ x, l.head? = some x → p x = false) : l.dropWhile p = l := by
  cases l with
  | nil => rfl
  | cons a t =>
    have ha : p a = false := h a rfl
    rw [List.dropWhile_cons, ha]
    simp

theorem dropWhile_exists_append {α : Type} (p : α → Bool) (l : List α) :
    ∃ t, t ++ l.dropWhile p = l := by
  induction l with
  | nil => exact ⟨[], rfl⟩
  | cons a t ih =>
    by_cases hp : p a
    · obtain ⟨u, hu⟩ := ih
      refine ⟨a :: u, ?_⟩
      simp only [List.dropWhile, hp, List.cons_append, hu]
    · simp only [Bool.not_eq_true] at hp
      refine ⟨[], ?_⟩
      rw [List.dropWhile_cons, hp]
      simp

theorem mem_trimChars (l : List Char) (x : Char) (h : x ∈ trimChars l) : x ∈ l := by
  unfold trimChars at h
  rw [List.mem_reverse] at h
  have h1 := mem_dropWhile _ _ _ h
  rw [List.mem_reverse] at h1
  exact mem_dropWhile _ _ _ h1

/-- The trimmed list has no leading whitespace left. -/
theorem trimChars_no_leading (l : List Char) (x : Char)
    (h : (trimChars l).head? = some x) : isPySpace x = false := by
  unfold trimChars at h
  obtain ⟨t, ht⟩ := dropWhile_exists_append isPySpace (l.dropWhile isPySpace).reverse
  have hpre : l.dropWhile isPySpace =
      ((l.dropWhile isPySpace).reverse.dropWhile isPySpace).reverse ++ t.reverse := by
    have := congrArg List.reverse ht
    simpa [List.reverse_append] using this.symm
  cases hr : ((l.dropWhile isPySpace).reverse.dropWhile isPySpace).reverse with
  | nil => rw [hr] at h; simp at h
  | cons y ys =>
    rw [hr] at h
    simp only [List.head?_cons, Option.some.injEq] at h
    rw [hr] at hpre
    have hhead : (l.dropWhile isPySpace).head? = some y := by
      rw [hpre]; rfl
    rw [← h]
    exact dropWhile_head_false isPySpace l y hhead

/-- The trimmed list has no trailing whitespace left. -/
theorem trimChars_no_trailing (l : List Char) (x : Char)
    (h : (trimChars l).reverse.head? = some x) : isPySpace x = false := by
  unfold trimChars at h
  rw [List.reverse_reverse] at h
  exact dropWhile_head_false isPySpace _ x h

theorem trimChars_idem (l : List Char) : trimChars (trimChars l) = trimChars l := by
  have h1 : (trimChars l).dropWhile isPySpace = trimChars l :=
    dropWhile_eq_self_of _ _ (trimChars_no_leading l)
  have h2 : (trimChars l).reverse.dropWhile isPySpace = (trimChars l).reverse :=
    dropWhile_eq_self_of _ _ (trimChars_no_trailing l)
  show ((((trimChars l).dropWhile isPySpace).reverse).dropWhile isPySpace).reverse = trimChars l
  rw [h1, h2, List.reverse_reverse]

theorem map_id_of_mem {α : Type} (f : α → α) (l : List α)
    (h : ∀ x ∈ l, f x = x) : l.map f = l := by
  induction l with
  | nil => rfl
  | cons a t ih =>
    simp only [List.map_cons, h a (List.mem_cons_self a t),
      ih fun x hx => h x (List.mem_cons_of_mem a hx)]

theorem subChar_not_reserved (c : Char) : reservedChar (subChar c) = false := by
  unfold subChar
  by_cases h : reservedChar c
  · rw [if_pos h]; rfl
  · rw [if_neg h]
    exact Bool.not_eq_true _ ▸ (by simpa using h)

theorem subChar_fix (c : Char) (h : reservedChar c = false) : subChar c = c := by
  unfold subChar
  rw [h]
  rfl

theorem mem_sanitize_not_reserved (x : String) (c : Char)
    (h : c ∈ (sanitize_filename x).data) : reservedChar c = false := by
  have h1 : c ∈ x.data.map subChar := mem_trimChars _ _ h
  obtain ⟨y, _, hy⟩ := List.mem_map.1 h1
  rw [← hy]
  exact subChar_not_reserved y

/-- C7: `sanitize_filename` is idempotent, its output contains no
reserved character, and it is total (it is a plain Lean function). -/
theorem sanitize_filename_idempotent_and_clean (x : String) :
    sanitize_filename (sanitize_filename x) = sanitize_filename x ∧
    ∀ c ∈ (sanitize_filename x).data, reservedChar c = false := by
  constructor
  · show (⟨trimChars ((sanitize_filename x).data.map subChar)⟩ : String) = sanitize_filename x
    have hmap : (sanitize_filename x).data.map subChar = (sanitize_filename x).data :=
      map_id_of_mem _ _ fun c hc => subChar_fix c (mem_sanitize_not_reserved x c hc)
    rw [hmap]
    show (⟨trimChars (trimChars (x.data.map subChar))⟩ : String) = sanitize_filename x
    rw [trimChars_idem]
    rfl
  · exact mem_sanitize_not_reserved x

/-! ## Network model

A run of the fetcher is driven by a finite oracle: the list of
responses the server produces, in order; each `requests.get` consumes
the head.  An exhausted oracle behaves as a transport error
(`requests.exceptions.RequestException`). -/

/-- A Python exception escaping a function of the program.  The only
uncaught exception any claim touches is `ValueError` from
`int(response.headers.get('Retry-After', 10))`. -/
inductive PyErr where
  | valueError
deriving DecidableEq, Repr

/-- The JSON body of a 200 response, as `fetch_json` inspects it:
a listing (`{'value': [...], '@odata.nextLink'?: url}`, always truthy),
a truthy non-listing value, or a falsy JSON value (`{}`, `[]`, `null`,
`0`, `""`), which fails the `if not data` test. -/
inductive Body where
  | listing (items : List String) (nextLink : Option String)
  | singular
  | falsy
deriving DecidableEq, Repr

/-- One server response: an HTTP status with an optional `Retry-After`
header and a body, or a transport-level error. -/
inductive Resp where
  | http (status : Nat) (retryAfter : Option String) (body : Body)
  | netErr
deriving DecidableEq, Repr

/-- A decimal-numeral parse: `some` of the value on a non-empty string
of digits, `none` otherwise. -/
def decimalNat? (s : String) : Option Nat :=
  if !s.data.isEmpty && s.data.all Char.isDigit then
    some (s.data.foldl (fun a c => a * 10 + (c.toNat - 48)) 0)
  else none

/-- Python `int(response.headers.get('Retry-After', 10))` (lines 104, 149,
173): 10 when the header is absent; a decimal parse otherwise, raising
`ValueError` on a non-numeric value.  (Python's `int` also tolerates a
sign and surrounding whitespace; no claim depends on those inputs.) -/
def parseRetryAfter (h : Option String) : Except PyErr Nat :=
  match h with
  | none => .ok 10
  | some s =>
    match decimalNat? s with
    | some n => .ok n
    | none => .error .valueError

/-- Outcome of the inner `for i in range(retries)` loop of `fetch_json`
for one continuation URL. -/
inductive AttemptRes where
  | got (b : Body)
  | aborted
  | exhausted
  | raised (e : PyErr)
deriving DecidableEq, Repr

/-- Result of one inner retry loop: its outcome, the unconsumed rest of
the response oracle, and the trace of `time.sleep` durations. -/
structure AttemptOut where
  res : AttemptRes
  rest : List Resp
  sleeps : List Nat
deriving DecidableEq, Repr

/-- The inner retry loop of `fetch_json` (lines 97-118), at loop index
`i` with `fuel` = remaining iterations of `range(retries)`:
200 ⇒ keep the body and break; 429 ⇒ sleep `Retry-After` (`ValueError`
propagates: the `except` clause only catches `RequestException`) and
continue with the next `i`; 5xx and transport errors ⇒ sleep `2 ** i`
and continue; any other status ⇒ the whole fetch aborts (`return None`,
line 114). -/
def attemptFetch : List Resp → Nat → Nat → AttemptOut
  | rs, _, 0 => ⟨.exhausted, rs, []⟩
  | [], i, fuel + 1 =>
    let r := attemptFetch [] (i + 1) fuel
    ⟨r.res, r.rest, 2 ^ i :: r.sleeps⟩
  | .netErr :: rest, i, fuel + 1 =>
    let r := attemptFetch rest (i + 1) fuel
    ⟨r.res, r.rest, 2 ^ i :: r.sleeps⟩
  | .http status ra body :: rest, i, fuel + 1 =>
    if status = 200 then ⟨.got body, rest, []⟩
    else if status = 429 then
      match parseRetryAfter ra with
      | .error e => ⟨.raised e, rest, []⟩
      | .ok w =>
        let r := attemptFetch rest (i + 1) fuel
        ⟨r.res, r.rest, w :: r.sleeps⟩
    else if 500 ≤ status then
      let r := attemptFetch rest (i + 1) fuel
      ⟨r.res, r.rest, 2 ^ i :: r.sleeps⟩
    else ⟨.aborted, rest, []⟩

theorem attemptFetch_got_length (fuel : Nat) : ∀ (rs : List Resp) (i : Nat) (b : Body),
    (attemptFetch rs i fuel).res = AttemptRes.got b →
    (attemptFetch rs i fuel).rest.length < rs.length := by
  induction fuel with
  | zero => intro rs i b h; simp [attemptFetch] at h
  | succ fuel ih =>
    intro rs i b h
    match rs with
    | [] =>
      simp only [attemptFetch] at h
      have := ih [] (i + 1) b h
      simp at this
    | .netErr :: rest =>
      simp only [attemptFetch] at h ⊢
      exact Nat.lt_succ_of_lt (ih rest (i + 1) b h)
    | .http status ra body :: rest =>
      simp only [attemptFetch] at h ⊢
      by_cases h200 : status = 200
      · simp only [h200, if_pos rfl] at h ⊢
        simp [List.length_cons, Nat.lt_succ_self]
      · simp only [if_neg h200] at h ⊢
        by_cases h429 : status = 429
        · simp only [h429, if_pos rfl] at h ⊢
          cases hra : parseRetryAfter ra with
          | error e => simp [hra] at h
          | ok w =>
            simp only [hra] at h ⊢
            exact Nat.lt_succ_of_lt (ih rest (i + 1) b h)
        · simp only [if_neg h429] at h ⊢
          by_cases h5 : 500 ≤ status
          · simp only [if_pos h5] at h ⊢
            exact Nat.lt_succ_of_lt (ih rest (i + 1) b h)
          · simp [if_neg h5] at h

/-- The value `fetch_json` returns when it does not raise:
`None`, a listing accumulation `{'value': all_items}`, or a singular
resource returned verbatim. -/
inductive FetchVal where
  | items (l : List String)
  | single
deriving DecidableEq, Repr

/-- A full run of `fetch_json`: its return value (or escaped exception)
and the trace of sleep durations. -/
structure FetchOut where
  result : Except PyErr (Option FetchVal)
  sleeps : List Nat
deriving Repr

/-- The outer `while current_url` pagination loop of `fetch_json`
(lines 95-136) with accumulator `all_items = acc`: retry the current
URL; on exhaustion or a falsy 200 body, return `None` if nothing was
accumulated, else `{'value': all_items}` (lines 120-122); on another
status, `return None` (line 114); on a singular resource, return it
verbatim (line 134); on a listing, extend the accumulator and follow
`@odata.nextLink` if present (lines 124-131). -/
def fetchLoop (rs : List Resp) (retries : Nat) (acc : List String) : FetchOut :=
  match h : attemptFetch rs 0 retries with
  | ⟨.raised e, _, sl⟩ => ⟨.error e, sl⟩
  | ⟨.aborted, _, sl⟩ => ⟨.ok none, sl⟩
  | ⟨.exhausted, _, sl⟩ => ⟨.ok (if acc.isEmpty then none else some (.items acc)), sl⟩
  | ⟨.got .falsy, _, sl⟩ => ⟨.ok (if acc.isEmpty then none else some (.items acc)), sl⟩
  | ⟨.got .singular, _, sl⟩ => ⟨.ok (some .single), sl⟩
  | ⟨.got (.listing items none), _, sl⟩ => ⟨.ok (some (.items (acc ++ items))), sl⟩
  | ⟨.got (.listing items (some link)), rest, sl⟩ =>
    let out := fetchLoop rest retries (acc ++ items)
    ⟨out.result, sl ++ out.sleeps⟩
termination_by rs.length
decreasing_by
  have hlt := attemptFetch_got_length retries rs 0 (Body.listing items (some link))
    (by rw [h])
  rw [h] at hlt
  exact hlt

/-- The entry point `fetch_json(url, token, retries=5, ...)` run against a response
oracle.  The URL and the `$top` page-size injection only affect which
responses the server produces, which the oracle already fixes. -/
def fetch_json (rs : List Resp) (retries : Nat := 5) : FetchOut :=
  fetchLoop rs retries []

/-! ## Filesystem model -/

/-- The filesystem: files as an association list (a write shadows
earlier entries) and a list of existing directories. -/
structure FS where
  files : List (String × String)
  dirs : List String
deriving DecidableEq, Repr

def FS.fileContent (fs : FS) (p : String) : Option String :=
  (fs.files.find? (fun e => e.1 = p)).map (·.2)

/-- Python `os.path.exists` on the output markdown file path. -/
def FS.fileExists (fs : FS) (p : String) : Bool :=
  (fs.fileContent p).isSome

/-- Python `os.path.exists` on a directory path. -/
def FS.dirExists (fs : FS) (d : String) : Bool :=
  decide (d ∈ fs.dirs)

/-- Python `open(path, 'w').write(content)`. -/
def FS.writeFile (fs : FS) (p c : String) : FS :=
  ⟨(p, c) :: fs.files, fs.dirs⟩

/-- Python `if not os.path.exists(d): os.makedirs(d)`. -/
def FS.ensureDir (fs : FS) (d : String) : FS :=
  if fs.dirExists d then fs else ⟨fs.files, d :: fs.dirs⟩

/-! ## Resume decision (walker lines 309-334) -/

/-- The remote-host marker the walker greps the saved markdown for. -/
def graphHost : String := "graph.microsoft.com"

/-- The walker's per-page resume decision (lines 317-331): download
unless the markdown file exists, its content is free of
`graph.microsoft.com`, and the assets directory exists.  (The
file-read step is modelled as total; the `except: pass` path keeps
`should_download = True`, exactly as a missing file does.) -/
def should_download (fs : FS) (mdFilePath assetsDir : String) : Bool :=
  match fs.fileContent mdFilePath with
  | none => true
  | some content =>
    if (!(strContains content graphHost)) && fs.dirExists assetsDir then false
    else true

/-- The spec's three sync states (§4.5). -/
inductive SyncState where
  | unsynced
  | partSynced
  | synced
deriving DecidableEq, Repr

/-- Modelled from the spec (§4.5), for comparison with the walker's
decision: Unsynced when the output file is missing; PartiallySynced
when it exists but the assets directory is missing or the content still
mentions the remote host; Synced otherwise. -/
def specClassify (fileC : Option String) (assetsDirExists : Bool) : SyncState :=
  match fileC with
  | none => .unsynced
  | some content =>
    if !assetsDirExists || strContains content graphHost then .partSynced
    else .synced

/-- C1: the walker's resume decision matches the spec's three-state
classification — it skips (no download, no rewrite) exactly on Synced,
and fully (re)synchronizes exactly on Unsynced or PartiallySynced. -/
theorem resume_decision_matches_spec (fs : FS) (mdFilePath assetsDir : String) :
    (should_download fs mdFilePath assetsDir = false ↔
      specClassify (fs.fileContent mdFilePath) (fs.dirExists assetsDir) = .synced) ∧
    (should_download fs mdFilePath assetsDir = true ↔
      (specClassify (fs.fileContent mdFilePath) (fs.dirExists assetsDir) = .unsynced ∨
       specClassify (fs.fileContent mdFilePath) (fs.dirExists assetsDir) = .partSynced)) := by
  cases h : fs.fileContent mdFilePath with
  | none => simp [should_download, specClassify, h]
  | some content =>
    by_cases hg : strContains content graphHost <;>
      by_cases hd : fs.dirExists assetsDir <;>
        simp [should_download, specClassify, h, hg, hd]

/-! ### Unfolding lemmas for `fetchLoop` (it is defined by well-founded
recursion, so its equation is exposed case by case) -/

theorem fetchLoop_raised (rs rest : List Resp) (retries : Nat) (acc : List String)
    (e : PyErr) (sl : List Nat)
    (h : attemptFetch rs 0 retries = ⟨.raised e, rest, sl⟩) :
    fetchLoop rs retries acc = ⟨.error e, sl⟩ := by
  rw [fetchLoop, h]

theorem fetchLoop_aborted (rs rest : List Resp) (retries : Nat) (acc : List String)
    (sl : List Nat)
    (h : attemptFetch rs 0 retries = ⟨.aborted, rest, sl⟩) :
    fetchLoop rs retries acc = ⟨.ok none, sl⟩ := by
  rw [fetchLoop, h]

theorem fetchLoop_exhausted (rs rest : List Resp) (retries : Nat) (acc : List String)
    (sl : List Nat)
    (h : attemptFetch rs 0 retries = ⟨.exhausted, rest, sl⟩) :
    fetchLoop rs retries acc =
      ⟨.ok (if acc.isEmpty then none else some (.items acc)), sl⟩ := by
  rw [fetchLoop, h]

theorem fetchLoop_last_page (rs rest : List Resp) (retries : Nat) (acc items : List String)
    (sl : List Nat)
    (h : attemptFetch rs 0 retries = ⟨.got (.listing items none), rest, sl⟩) :
    fetchLoop rs retries acc = ⟨.ok (some (.items (acc ++ items))), sl⟩ := by
  rw [fetchLoop, h]

theorem fetchLoop_next_page (rs rest : List Resp) (retries : Nat) (acc items : List String)
    (link : String) (sl : List Nat)
    (h : attemptFetch rs 0 retries = ⟨.got (.listing items (some link)), rest, sl⟩) :
    fetchLoop rs retries acc =
      ⟨(fetchLoop rest retries (acc ++ items)).result,
        sl ++ (fetchLoop rest retries (acc ++ items)).sleeps⟩ := by
  rw [fetchLoop, h]

/-! ### C3 — retry exhaustion returns the partial accumulation -/

/-- C3: when all retry attempts for the current continuation page are
exhausted without a 200, `fetch_json` returns the accumulated items as
a success if any were gathered from earlier pages, and `None` if none
were (lines 120-122).  The first conjunct states it for the pagination
loop at any accumulator state; the second anchors it to a `fetch_json`
run whose first page succeeded with a continuation link. -/
theorem fetch_exhaustion_returns_accumulated (rs : List Resp) (retries : Nat)
    (h : (attemptFetch rs 0 retries).res = .exhausted) :
    (∀ acc : List String,
      (fetchLoop rs retries acc).result =
        .ok (if acc.isEmpty then none else some (.items acc))) ∧
    (∀ (items : List String) (link : String) (k : Nat),
      retries = k + 1 →
      (fetch_json (.http 200 none (.listing items (some link)) :: rs) retries).result =
        .ok (if items.isEmpty then none else some (.items items))) := by
  constructor
  · intro acc
    have hh : attemptFetch rs 0 retries =
        ⟨.exhausted, (attemptFetch rs 0 retries).rest, (attemptFetch rs 0 retries).sleeps⟩ := by
      cases he : attemptFetch rs 0 retries
      rw [he] at h
      simp only at h
      rw [h]
    rw [fetchLoop_exhausted rs _ retries acc _ hh]
  · intro items link k hk
    subst hk
    have hfirst : attemptFetch (.http 200 none (.listing items (some link)) :: rs) 0 (k + 1) =
        ⟨.got (.listing items (some link)), rs, []⟩ := by
      simp [attemptFetch]
    unfold fetch_json
    rw [fetchLoop_next_page _ rs (k + 1) [] items link [] hfirst]
    have hh : attemptFetch rs 0 (k + 1) =
        ⟨.exhausted, (attemptFetch rs 0 (k + 1)).rest, (attemptFetch rs 0 (k + 1)).sleeps⟩ := by
      cases he : attemptFetch rs 0 (k + 1)
      rw [he] at h
      simp only at h
      rw [h]
    rw [fetchLoop_exhausted rs _ (k + 1) ([] ++ items) _ hh]
    simp

/-- Witness for C3: one successful page with an item, then the second
page's retries exhausted by transport errors — the item is returned. -/
theorem fetch_exhaustion_returns_accumulated_witness :
    (fetch_json [.http 200 none (.listing ["page1item"] (some "next")),
      .netErr, .netErr] 2).result = .ok (some (.items ["page1item"])) := by
  have h := (fetch_exhaustion_returns_accumulated [.netErr, .netErr] 2
    (by decide)).2 ["page1item"] "next" 1 rfl
  simpa using h

/-! ### C4 — a non-retryable status discards the partial accumulation -/

/-- C4 counterexample: page 1 succeeds with one item and a continuation
link, page 2 answers 404 (non-retryable).  The claim says the
accumulated item is returned as a degraded success; `fetch_json`
instead executes `return None` (line 114), discarding it. -/
theorem fetch_abort_discards_accumulated_cex :
    (fetch_json [.http 200 none (.listing ["page1item"] (some "next")),
      .http 404 none .falsy] 5).result = .ok none := by
  have hfirst : attemptFetch [.http 200 none (.listing ["page1item"] (some "next")),
      .http 404 none .falsy] 0 5 =
      ⟨.got (.listing ["page1item"] (some "next")), [.http 404 none .falsy], []⟩ := by
    decide
  unfold fetch_json
  rw [fetchLoop_next_page _ _ 5 [] _ "next" [] hfirst]
  have habort : attemptFetch [.http 404 none .falsy] 0 5 =
      ⟨.aborted, [], []⟩ := by decide
  rw [fetchLoop_aborted _ _ 5 ([] ++ ["page1item"]) [] habort]

/-- C4 amended: the partial accumulation is preserved only when a
page's failure is retry exhaustion (429/5xx/transport errors); a
non-retryable HTTP status — one that is neither 200 nor 429 nor ≥ 500,
e.g. 404 — aborts the entire fetch immediately and returns `None`,
discarding all items accumulated from earlier pages. -/
theorem fetch_nonretryable_discards_accumulated (items : List String) (link : String)
    (status : Nat) (ra : Option String) (b : Body) (rs : List Resp) (k : Nat)
    (h200 : status ≠ 200) (h429 : status ≠ 429) (h5 : status < 500) :
    (fetch_json (.http 200 none (.listing items (some link)) ::
      .http status ra b :: rs) (k + 1)).result = .ok none := by
  have hfirst : attemptFetch (.http 200 none (.listing items (some link)) ::
      .http status ra b :: rs) 0 (k + 1) =
      ⟨.got (.listing items (some link)), .http status ra b :: rs, []⟩ := by
    simp [attemptFetch]
  unfold fetch_json
  rw [fetchLoop_next_page _ _ (k + 1) [] items link [] hfirst]
  have habort : attemptFetch (.http status ra b :: rs) 0 (k + 1) =
      ⟨.aborted, rs, []⟩ := by
    simp only [attemptFetch, if_neg h200, if_neg h429, if_neg (by omega : ¬ 500 ≤ status)]
  rw [fetchLoop_aborted _ rs (k + 1) ([] ++ items) [] habort]

/-- Witness for C4's amended theorem at status 404. -/
theorem fetch_nonretryable_discards_accumulated_witness :
    (fetch_json [.http 200 none (.listing ["a", "b"] (some "next")),
      .http 404 none .singular] 3).result = .ok none :=
  fetch_nonretryable_discards_accumulated ["a", "b"] "next" 404 none .singular [] 2
    (by decide) (by decide) (by decide)

/-! ### C5 — 429 handling -/

/-- C5 counterexample: five consecutive 429 responses (header absent,
so each sleeps the 10-second fallback) exhaust the default budget of
`retries = 5` even though a perfectly good 200 follows: the `continue`
on line 107 advances `i` in `range(retries)`.  The claim said 429s
never exhaust the retry budget; the fetch in fact fails. -/
theorem fetch_429_exhausts_budget_cex :
    (fetch_json [.http 429 none .falsy, .http 429 none .falsy, .http 429 none .falsy,
      .http 429 none .falsy, .http 429 none .falsy,
      .http 200 none (.listing ["item"] none)] 5) =
      ⟨.ok none, [10, 10, 10, 10, 10]⟩ := by
  have h : attemptFetch [.http 429 none .falsy, .http 429 none .falsy,
      .http 429 none .falsy, .http 429 none .falsy, .http 429 none .falsy,
      .http 200 none (.listing ["item"] none)] 0 5 =
      ⟨.exhausted, [.http 200 none (.listing ["item"] none)], [10, 10, 10, 10, 10]⟩ := by
    decide
  unfold fetch_json
  rw [fetchLoop_exhausted _ _ 5 [] _ h]
  rfl

theorem attemptFetch_429_replicate (ra : Option String) (w : Nat) (b : Body)
    (hra : parseRetryAfter ra = .ok w) :
    ∀ (k i : Nat) (rs : List Resp),
      attemptFetch (List.replicate k (.http 429 ra b) ++ rs) i k =
        ⟨.exhausted, rs, List.replicate k w⟩ := by
  intro k
  induction k with
  | zero => intro i rs; simp [attemptFetch]
  | succ k ih =>
    intro i rs
    simp only [List.replicate_succ, List.cons_append, attemptFetch]
    simp [hra, ih (i + 1) rs]

/-- C5 amended: every 429 response sleeps the server-specified
`Retry-After` interval (10 seconds when the header is absent) and
retries the same URL, but — unlike the claim — each such loop-back
consumes one of the `retries` attempts of `range(retries)`, so
`retries` consecutive 429 responses exhaust the budget: the page fails
and `fetch_json` returns `None` (or the accumulation of earlier
pages). -/
theorem fetch_429_sleeps_but_consumes_budget (ra : Option String) (w : Nat) (b : Body)
    (retries : Nat) (rs : List Resp) (hra : parseRetryAfter ra = .ok w) :
    attemptFetch (List.replicate retries (.http 429 ra b) ++ rs) 0 retries =
      ⟨.exhausted, rs, List.replicate retries w⟩ ∧
    ∀ acc : List String,
      fetchLoop (List.replicate retries (.http 429 ra b) ++ rs) retries acc =
        ⟨.ok (if acc.isEmpty then none else some (.items acc)), List.replicate retries w⟩ := by
  have h := attemptFetch_429_replicate ra w b hra retries 0 rs
  exact ⟨h, fun acc => fetchLoop_exhausted _ rs retries acc _ h⟩

/-- Witness for C5's amended theorem: two 429s with `Retry-After: 7`
against a budget of 2 sleep 7 twice and fail the fetch. -/
theorem fetch_429_sleeps_but_consumes_budget_witness :
    attemptFetch (List.replicate 2 (.http 429 (some "7") .falsy) ++ []) 0 2 =
      ⟨.exhausted, [], [7, 7]⟩ ∧
    fetchLoop (List.replicate 2 (.http 429 (some "7") .falsy) ++ []) 2 [] =
      ⟨.ok none, [7, 7]⟩ := by
  have h := fetch_429_sleeps_but_consumes_budget (some "7") 7 .falsy 2 []
    (by rfl)
  exact ⟨h.1, h.2 []⟩

/-! ### C6 — exponential backoff on 5xx -/

theorem pow_sleep_range (i k : Nat) :
    2 ^ i :: (List.range k).map (fun j => 2 ^ (i + 1 + j)) =
      (List.range (k + 1)).map (fun j => 2 ^ (i + j)) := by
  rw [List.range_succ_eq_map]
  simp only [List.map_cons, Nat.add_zero, List.map_map]
  refine congrArg (2 ^ i :: ·) ?_
  apply List.map_congr_left
  intro a _
  simp only [Function.comp_apply]
  refine congrArg (2 ^ ·) ?_
  omega

theorem attemptFetch_5xx_replicate (status : Nat) (ra : Option String) (b : Body)
    (h5 : 500 ≤ status) :
    ∀ (k i fuel : Nat) (rs : List Resp), k ≤ fuel →
      attemptFetch (List.replicate k (.http status ra b) ++ rs) i fuel =
        ⟨(attemptFetch rs (i + k) (fuel - k)).res,
         (attemptFetch rs (i + k) (fuel - k)).rest,
         (List.range k).map (fun j => 2 ^ (i + j)) ++
           (attemptFetch rs (i + k) (fuel - k)).sleeps⟩ := by
  intro k
  induction k with
  | zero => intro i fuel rs _; simp
  | succ k ih =>
    intro i fuel rs hk
    match fuel, hk with
    | fuel + 1, hk =>
      have h200 : ¬ status = 200 := by omega
      have h429 : ¬ status = 429 := by omega
      simp only [List.replicate_succ, List.cons_append, attemptFetch,
        if_neg h200, if_neg h429, if_pos h5]
      simp only [List.append_eq]
      rw [ih (i + 1) fuel rs (by omega)]
      have e1 : i + 1 + k = i + (k + 1) := by omega
      have e2 : fuel - k = fuel + 1 - (k + 1) := by omega
      rw [e1, e2, ← pow_sleep_range i k]
      simp [List.cons_append]

/-- C6: when the response stream for a URL is K consecutive 5xx
responses (K at most the retry budget), the fetcher sleeps exactly
`2^0, 2^1, …, 2^(K-1)` seconds, one sleep after each 5xx response,
before giving up (K = retries: the fetch fails) or succeeding
(K < retries: a 200 follows and the items are returned). -/
theorem fetch_5xx_backoff_timing (K retries status : Nat) (ra : Option String) (b : Body)
    (h5 : 500 ≤ status) :
    (K = retries →
      fetch_json (List.replicate K (.http status ra b)) retries =
        ⟨.ok none, (List.range K).map (fun j => 2 ^ j)⟩) ∧
    (∀ items : List String, K < retries →
      fetch_json (List.replicate K (.http status ra b) ++
          [.http 200 none (.listing items none)]) retries =
        ⟨.ok (some (.items items)), (List.range K).map (fun j => 2 ^ j)⟩) := by
  have hrange : ∀ n : Nat, (List.range n).map (fun j => 2 ^ (0 + j)) =
      (List.range n).map (fun j => 2 ^ j) := by
    intro n
    apply List.map_congr_left
    intro a _
    rw [Nat.zero_add]
  constructor
  · intro hK
    subst hK
    have h := attemptFetch_5xx_replicate status ra b h5 K 0 K [] (le_refl K)
    rw [List.append_nil] at h
    simp only [Nat.sub_self, attemptFetch, List.append_nil] at h
    unfold fetch_json
    rw [fetchLoop_exhausted _ [] K [] _ h]
    rw [hrange K]
    rfl
  · intro items hK
    have h := attemptFetch_5xx_replicate status ra b h5 K 0 retries
      [.http 200 none (.listing items none)] (le_of_lt hK)
    have hfuel : retries - K = (retries - K - 1) + 1 := by omega
    rw [hfuel] at h
    have hgot : attemptFetch [.http 200 none (.listing items none)] (0 + K)
        ((retries - K - 1) + 1) = ⟨.got (.listing items none), [], []⟩ := by
      simp [attemptFetch]
    rw [hgot] at h
    unfold fetch_json
    rw [fetchLoop_last_page _ [] retries [] items _ h]
    rw [List.append_nil, hrange K]
    rfl

/-- Witness for C6: two 500s against a budget of 2 sleep 1 then 2 and
give up; one 503 followed by a 200 against a budget of 3 sleeps 1 and
succeeds. -/
theorem fetch_5xx_backoff_timing_witness :
    fetch_json (List.replicate 2 (.http 500 none .falsy)) 2 = ⟨.ok none, [1, 2]⟩ ∧
    fetch_json (List.replicate 1 (.http 503 none .falsy) ++
        [.http 200 none (.listing ["x"] none)]) 3 =
      ⟨.ok (some (.items ["x"])), [1]⟩ := by
  constructor
  · have h := (fetch_5xx_backoff_timing 2 2 500 none .falsy (by decide)).1 rfl
    simpa using h
  · have h := (fetch_5xx_backoff_timing 1 3 503 none .falsy (by decide)).2 ["x"] (by decide)
    simpa using h

/-! ### C9 — exception containment -/

/-- Two more unfolding lemmas for `fetchLoop`. -/
theorem fetchLoop_falsy (rs rest : List Resp) (retries : Nat) (acc : List String)
    (sl : List Nat)
    (h : attemptFetch rs 0 retries = ⟨.got .falsy, rest, sl⟩) :
    fetchLoop rs retries acc =
      ⟨.ok (if acc.isEmpty then none else some (.items acc)), sl⟩ := by
  rw [fetchLoop, h]

theorem fetchLoop_singular (rs rest : List Resp) (retries : Nat) (acc : List String)
    (sl : List Nat)
    (h : attemptFetch rs 0 retries = ⟨.got .singular, rest, sl⟩) :
    fetchLoop rs retries acc = ⟨.ok (some .single), sl⟩ := by
  rw [fetchLoop, h]

/-- C9 counterexample: a single 429 whose `Retry-After` header is the
non-numeric string "abc" makes `int()` on line 104 raise `ValueError`,
which the `except requests.exceptions.RequestException` handler on
line 115 does not catch: the exception escapes `fetch_json`. -/
theorem fetch_badRetryAfter_raises_cex :
    (fetch_json [.http 429 (some "abc") .falsy] 5).result = .error .valueError := by
  have h : attemptFetch [.http 429 (some "abc") .falsy] 0 5 =
      ⟨.raised .valueError, [], []⟩ := by decide
  unfold fetch_json
  rw [fetchLoop_raised _ [] 5 [] .valueError [] h]

/-- The `Retry-After` header of a 429 response is absent or parses as a
decimal integer (so line 104's `int()` cannot raise on it). -/
def retryAfterOk : Resp → Bool
  | .http 429 ra _ =>
    match parseRetryAfter ra with
    | .ok _ => true
    | .error _ => false
  | _ => true

theorem attemptFetch_no_raise (fuel : Nat) : ∀ (rs : List Resp) (i : Nat) (e : PyErr),
    (∀ r ∈ rs, retryAfterOk r = true) →
    (attemptFetch rs i fuel).res ≠ AttemptRes.raised e := by
  induction fuel with
  | zero => intro rs i e _ h; simp [attemptFetch] at h
  | succ fuel ih =>
    intro rs i e hok h
    match rs with
    | [] =>
      simp only [attemptFetch] at h
      exact ih [] (i + 1) e (by simp) h
    | .netErr :: rest =>
      simp only [attemptFetch] at h
      exact ih rest (i + 1) e (fun r hr => hok r (List.mem_cons_of_mem _ hr)) h
    | .http status ra b :: rest =>
      by_cases h200 : status = 200
      · simp [attemptFetch, h200] at h
      · by_cases h429 : status = 429
        · subst h429
          cases hpa : parseRetryAfter ra with
          | error e2 =>
            have hra := hok (.http 429 ra b) (List.mem_cons_self _ _)
            simp [retryAfterOk, hpa] at hra
          | ok w =>
            simp only [attemptFetch, if_neg h200, if_pos rfl, hpa] at h
            exact ih rest (i + 1) e (fun r hr => hok r (List.mem_cons_of_mem _ hr)) h
        · by_cases h5 : 500 ≤ status
          · simp only [attemptFetch, if_neg h200, if_neg h429, if_pos h5] at h
            exact ih rest (i + 1) e (fun r hr => hok r (List.mem_cons_of_mem _ hr)) h
          · simp only [attemptFetch, if_neg h200, if_neg h429, if_neg h5] at h
            simp at h

theorem attemptFetch_rest_subset (fuel : Nat) : ∀ (rs : List Resp) (i : Nat) (r : Resp),
    r ∈ (attemptFetch rs i fuel).rest → r ∈ rs := by
  induction fuel with
  | zero => intro rs i r h; simpa [attemptFetch] using h
  | succ fuel ih =>
    intro rs i r h
    match rs with
    | [] =>
      simp only [attemptFetch] at h
      exact ih [] (i + 1) r h
    | .netErr :: rest =>
      simp only [attemptFetch] at h
      exact List.mem_cons_of_mem _ (ih rest (i + 1) r h)
    | .http status ra b :: rest =>
      by_cases h200 : status = 200
      · simp only [attemptFetch, if_pos h200] at h
        exact List.mem_cons_of_mem _ h
      · by_cases h429 : status = 429
        · subst h429
          cases hpa : parseRetryAfter ra with
          | error e2 =>
            simp only [attemptFetch, if_neg h200, if_pos rfl, hpa] at h
            exact List.mem_cons_of_mem _ h
          | ok w =>
            simp only [attemptFetch, if_neg h200, if_pos rfl, hpa] at h
            exact List.mem_cons_of_mem _ (ih rest (i + 1) r h)
        · by_cases h5 : 500 ≤ status
          · simp only [attemptFetch, if_neg h200, if_neg h429, if_pos h5] at h
            exact List.mem_cons_of_mem _ (ih rest (i + 1) r h)
          · simp only [attemptFetch, if_neg h200, if_neg h429, if_neg h5] at h
            exact List.mem_cons_of_mem _ h

theorem fetchLoop_ok_aux : ∀ (n : Nat) (rs : List Resp), rs.length ≤ n →
    ∀ (retries : Nat) (acc : List String),
      (∀ r ∈ rs, retryAfterOk r = true) →
      ∃ v, (fetchLoop rs retries acc).result = .ok v := by
  intro n
  induction n with
  | zero =>
    intro rs hlen retries acc hok
    rcases h' : attemptFetch rs 0 retries with ⟨res, rest, sl⟩
    cases res with
    | raised e =>
      exact absurd (by rw [h'] : (attemptFetch rs 0 retries).res = .raised e)
        (attemptFetch_no_raise retries rs 0 e hok)
    | aborted => exact ⟨none, by rw [fetchLoop_aborted rs rest retries acc sl h']⟩
    | exhausted => exact ⟨_, by rw [fetchLoop_exhausted rs rest retries acc sl h']⟩
    | got b =>
      have hlt := attemptFetch_got_length retries rs 0 b (by rw [h'])
      omega
  | succ n ih =>
    intro rs hlen retries acc hok
    rcases h' : attemptFetch rs 0 retries with ⟨res, rest, sl⟩
    cases res with
    | raised e =>
      exact absurd (by rw [h'] : (attemptFetch rs 0 retries).res = .raised e)
        (attemptFetch_no_raise retries rs 0 e hok)
    | aborted => exact ⟨none, by rw [fetchLoop_aborted rs rest retries acc sl h']⟩
    | exhausted => exact ⟨_, by rw [fetchLoop_exhausted rs rest retries acc sl h']⟩
    | got b =>
      cases b with
      | falsy => exact ⟨_, by rw [fetchLoop_falsy rs rest retries acc sl h']⟩
      | singular => exact ⟨_, by rw [fetchLoop_singular rs rest retries acc sl h']⟩
      | listing items nextLink =>
        cases nextLink with
        | none => exact ⟨_, by rw [fetchLoop_last_page rs rest retries acc items sl h']⟩
        | some link =>
          have hlt := attemptFetch_got_length retries rs 0 (.listing items (some link))
            (by rw [h'])
          rw [h'] at hlt
          have hlt' : rest.length < rs.length := hlt
          have hok' : ∀ r ∈ rest, retryAfterOk r = true := fun r hr =>
            hok r (attemptFetch_rest_subset retries rs 0 r (by rw [h']; exact hr))
          obtain ⟨v, hv⟩ := ih rest (by omega) retries (acc ++ items) hok'
          exact ⟨v, by rw [fetchLoop_next_page rs rest retries acc items link sl h']; exact hv⟩

/-- C9 amended: the fetcher never lets an exception escape — transient
failures (connection errors, 429, 5xx) are retried internally and
surface only as a returned value — PROVIDED every 429 response's
`Retry-After` header is absent or a decimal numeral.  (A non-numeric
header makes `int()` raise `ValueError` past `fetch_json`'s boundary,
whose handler only catches `RequestException`; `download_file` is
immune because its bare `except Exception` catches the `ValueError`
too, modelled by `download_file`'s total return type below.) -/
theorem fetch_json_no_uncaught_exception (rs : List Resp) (retries : Nat)
    (acc : List String) (hok : ∀ r ∈ rs, retryAfterOk r = true) :
    ∃ v, (fetchLoop rs retries acc).result = .ok v :=
  fetchLoop_ok_aux rs.length rs (le_refl _) retries acc hok

/-- Witness for C9's amended theorem: a single well-formed 429 and then
budget exhaustion still yields a returned value, not an exception. -/
theorem fetch_json_no_uncaught_exception_witness :
    ∃ v, (fetchLoop [.http 429 none .falsy] 1 []).result = .ok v :=
  fetch_json_no_uncaught_exception [.http 429 none .falsy] 1 [] (by decide)

/-! ## Media downloader (`download_file`, lines 138-158) -/

/-- A run of `download_file`: the returned boolean, the trace of sleep
durations, whether the file at `save_path` was opened and written, and
the number of `requests.get` calls made.  The function is total: its
bare `except Exception` catches everything (including `ValueError` from
`int()` on a malformed `Retry-After`), so no exception escapes. -/
structure DlOut where
  ok : Bool
  sleeps : List Nat
  wrote : Bool
  attempts : Nat
deriving DecidableEq, Repr

/-- The `for i in range(retries)` loop of `download_file`: 200 ⇒ write
the file, return True; 429 ⇒ sleep `Retry-After` (on a malformed header
the `ValueError` is caught and `2 ** i` is slept instead, by the
`except Exception` handler); 5xx and transport errors ⇒ sleep `2 ** i`;
any other status matches no branch of the `if`/`elif` chain, so the
loop falls through to the next attempt with no sleep at all.  After the
loop, return False (line 158). -/
def downloadLoop : List Resp → Nat → Nat → DlOut
  | _, _, 0 => ⟨false, [], false, 0⟩
  | [], i, fuel + 1 =>
    let r := downloadLoop [] (i + 1) fuel
    ⟨r.ok, 2 ^ i :: r.sleeps, r.wrote, r.attempts + 1⟩
  | .netErr :: rest, i, fuel + 1 =>
    let r := downloadLoop rest (i + 1) fuel
    ⟨r.ok, 2 ^ i :: r.sleeps, r.wrote, r.attempts + 1⟩
  | .http status ra _ :: rest, i, fuel + 1 =>
    if status = 200 then ⟨true, [], true, 1⟩
    else if status = 429 then
      match parseRetryAfter ra with
      | .ok w =>
        let r := downloadLoop rest (i + 1) fuel
        ⟨r.ok, w :: r.sleeps, r.wrote, r.attempts + 1⟩
      | .error _ =>
        let r := downloadLoop rest (i + 1) fuel
        ⟨r.ok, 2 ^ i :: r.sleeps, r.wrote, r.attempts + 1⟩
    else if 500 ≤ status then
      let r := downloadLoop rest (i + 1) fuel
      ⟨r.ok, 2 ^ i :: r.sleeps, r.wrote, r.attempts + 1⟩
    else
      let r := downloadLoop rest (i + 1) fuel
      ⟨r.ok, r.sleeps, r.wrote, r.attempts + 1⟩

/-- The entry point `download_file(url, save_path, token, retries=3)` against a
response oracle. -/
def download_file (rs : List Resp) (retries : Nat := 3) : DlOut :=
  downloadLoop rs 0 retries

/-- A response whose status falls through `download_file`'s `if`/`elif`
chain: neither 200, nor 429, nor a 5xx, and not a transport error. -/
def nonHandledStatus : Resp → Bool
  | .http status _ _ => !(status == 200) && !(status == 429) && decide (status < 500)
  | .netErr => false

theorem downloadLoop_nonHandled : ∀ (retries : Nat) (rs : List Resp) (i : Nat),
    (∀ r ∈ rs, nonHandledStatus r = true) → retries ≤ rs.length →
    downloadLoop rs i retries = ⟨false, [], false, retries⟩ := by
  intro retries
  induction retries with
  | zero =>
    intro rs i _ _
    cases rs with
    | nil => rfl
    | cons r rest => cases r <;> rfl
  | succ retries ih =>
    intro rs i hall hlen
    match rs with
    | [] => simp at hlen
    | .netErr :: rest =>
      have := hall .netErr (List.mem_cons_self _ _)
      simp [nonHandledStatus] at this
    | .http status ra b :: rest =>
      have hh := hall (.http status ra b) (List.mem_cons_self _ _)
      simp only [nonHandledStatus, Bool.and_eq_true, Bool.not_eq_true', beq_eq_false_iff_ne,
        ne_eq, decide_eq_true_eq] at hh
      obtain ⟨⟨h200, h429⟩, h5⟩ := hh
      simp only [downloadLoop, if_neg h200, if_neg h429, if_neg (by omega : ¬ 500 ≤ status)]
      rw [ih rest (i + 1) (fun r hr => hall r (List.mem_cons_of_mem _ hr))
        (by simp only [List.length_cons] at hlen; omega)]

/-- C10: if every response `download_file` receives has a status that
is neither 200 nor 429 nor ≥ 500 (for example a persistent 404), it
makes exactly `retries` request attempts with no backoff sleep between
them, returns False without raising, and never creates or writes the
file at `save_path`. -/
theorem download_nonretryable_exhausts (rs : List Resp) (retries : Nat)
    (hall : ∀ r ∈ rs, nonHandledStatus r = true) (hlen : retries ≤ rs.length) :
    download_file rs retries = ⟨false, [], false, retries⟩ :=
  downloadLoop_nonHandled retries rs 0 hall hlen

/-- Witness for C10: three 404 responses against the default budget of
3 — three attempts, no sleeps, no write, result False. -/
theorem download_nonretryable_exhausts_witness :
    download_file [.http 404 none .falsy, .http 404 none .falsy, .http 404 none .falsy] 3 =
      ⟨false, [], false, 3⟩ :=
  download_nonretryable_exhausts
    [.http 404 none .falsy, .http 404 none .falsy, .http 404 none .falsy] 3
    (by decide) (by decide)

/-! ## Page content processor (`process_page_content`, lines 160-247)

The rich-content document is modelled structurally (the spec treats
`BeautifulSoup` as an external DOM facility): a list of text runs and
media tags.  The content-retrieval retry loop (lines 165-186) is
abstracted to its outcome, an `Option` document. -/

/-- The attributes of one `<img>` or `<object>` element that
`process_page_content` reads. -/
structure MediaTag where
  isImg : Bool
  dataFullresSrc : Option String
  src : Option String
  dataAttr : Option String
  dataAttachment : Option String
  serialized : String
deriving DecidableEq, Repr

/-- One node of the parsed document, in document order. -/
inductive Elem where
  | text (s : String)
  | media (t : MediaTag)
  | link (href : String) (label : String)
deriving DecidableEq, Repr

/-- Python `a or b` over optional attribute values: an empty string is
falsy and falls through. -/
def orAttr (a b : Option String) : Option String :=
  match a with
  | some s => if s.isEmpty then b else some s
  | none => b

/-- Line 202: `tag.get('data-fullres-src') or tag.get('src') or
tag.get('data')`. -/
def resolveSrc (t : MediaTag) : Option String :=
  orAttr t.dataFullresSrc (orAttr t.src t.dataAttr)

/-- Lines 204-205: skip the element unless the resolved source is
non-empty and starts with `http`. -/
def usableSrc (t : MediaTag) : Option String :=
  match resolveSrc t with
  | none => none
  | some s => if !s.isEmpty && strStartsWith s "http" then some s else none

/-- Lines 208-209: `bool(tag.get('data-attachment'))`. -/
def isAttachment (t : MediaTag) : Bool :=
  match t.dataAttachment with
  | some n => !n.isEmpty
  | none => false

/-- Lines 219-221: extension guessed from MIME hints in `str(tag)`. -/
def guessExt (t : MediaTag) : String :=
  if strContains t.serialized "image/jpeg" then ".jpg"
  else if strContains t.serialized "application/pdf" then ".pdf"
  else ".png"

/-- Lines 212-222: the generated asset filename. -/
def assetFilename (pageId : String) (idx : Nat) (t : MediaTag) : String :=
  if isAttachment t then
    pageId ++ "_" ++ sanitize_filename (t.dataAttachment.getD "")
  else
    pageId ++ "_asset_" ++ toString idx ++ guessExt t

/-- The downloaded bytes of one media resource, opaque to the model. -/
def binaryBlob : String := "<binary>"

/-- Lines 199-245 for a single media tag at enumeration index `idx`:
the rewritten element, the number of `download_file` calls (one when a
usable source exists, whether or not it succeeds), and the asset files
written.  On download failure the element is left unmodified. -/
def processTag (pageId assetsDir : String) (dl : String → Bool) (idx : Nat)
    (t : MediaTag) : Elem × Nat × List (String × String) :=
  match usableSrc t with
  | none => (.media t, 0, [])
  | some src =>
    let filename := assetFilename pageId idx t
    let savePath := assetsDir ++ "/" ++ filename
    if dl src then
      let localRel := "assets/" ++ filename
      if isAttachment t then
        (.link localRel ("📎 附件: " ++ t.dataAttachment.getD ""), 1,
          [(savePath, binaryBlob)])
      else if t.isImg then
        (.media { t with src := some localRel, dataFullresSrc := none }, 1,
          [(savePath, binaryBlob)])
      else
        (.media ⟨true, none, some localRel, none, none, ""⟩, 1,
          [(savePath, binaryBlob)])
    else (.media t, 1, [])

/-- The `for idx, tag in enumerate(media_tags)` loop: the enumeration
index advances on media tags only (`find_all(['img', 'object'])`). -/
def processElems (pageId assetsDir : String) (dl : String → Bool) :
    Nat → List Elem → List Elem × Nat × List (String × String)
  | _, [] => ([], 0, [])
  | idx, .media t :: es =>
    let r := processTag pageId assetsDir dl idx t
    let rest := processElems pageId assetsDir dl (idx + 1) es
    (r.1 :: rest.1, r.2.1 + rest.2.1, r.2.2 ++ rest.2.2)
  | idx, e :: es =>
    let rest := processElems pageId assetsDir dl idx es
    (e :: rest.1, rest.2.1, rest.2.2)

/-- The processor `process_page_content(page_id, token, assets_dir)` with the
retrieval outcome `content` and download oracle `dl`: on retrieval
failure return `None` with the filesystem untouched (lines 185-186);
otherwise create the assets directory unconditionally (lines 191-193),
process every media tag, and return the rewritten document and the
number of download calls. -/
def process_page_content (fs : FS) (assetsDir pageId : String)
    (content : Option (List Elem)) (dl : String → Bool) :
    FS × Option (List Elem) × Nat :=
  match content with
  | none => (fs, none, 0)
  | some doc =>
    let fs1 := fs.ensureDir assetsDir
    let r := processElems pageId assetsDir dl 0 doc
    (r.2.2.foldl (fun f pc => f.writeFile pc.1 pc.2) fs1, some r.1, r.2.1)

/-! ### C8 — when the assets directory is created -/

theorem foldl_writeFile_dirs (l : List (String × String)) :
    ∀ fs : FS, (l.foldl (fun f pc => f.writeFile pc.1 pc.2) fs).dirs = fs.dirs := by
  induction l with
  | nil => intro fs; rfl
  | cons pc l ih => intro fs; rw [List.foldl_cons, ih]; rfl

theorem ensureDir_dirExists (fs : FS) (d : String) :
    (fs.ensureDir d).dirExists d = true := by
  unfold FS.ensureDir
  by_cases h : fs.dirExists d
  · rwa [if_pos h]
  · rw [if_neg h]
    simp [FS.dirExists]

/-- C8 counterexample: a page whose content retrieval succeeds but
contains only a text run — no media element at all — still gets the
assets directory created (lines 191-193 run before the media loop),
so the filesystem is changed, contradicting "the assets directory is
not created and the filesystem is left unchanged". -/
theorem assets_dir_created_without_media_cex :
    (process_page_content ⟨[], []⟩ "OneNote_Export/Notebook/Section/assets" "page1"
        (some [.text "plain text only"]) (fun _ => true)).1 =
      (⟨[], ["OneNote_Export/Notebook/Section/assets"]⟩ : FS) ∧
    (⟨[], ["OneNote_Export/Notebook/Section/assets"]⟩ : FS) ≠ (⟨[], []⟩ : FS) := by
  exact ⟨rfl, by decide⟩

/-- C8 amended: `process_page_content` creates the assets directory
whenever content retrieval succeeds — eagerly, before enumerating
media, even when the page has no downloadable media — and leaves the
filesystem unchanged exactly when content retrieval fails. -/
theorem assets_dir_created_on_success (fs : FS) (assetsDir pageId : String)
    (doc : List Elem) (dl : String → Bool) :
    ((process_page_content fs assetsDir pageId (some doc) dl).1).dirExists assetsDir = true ∧
    process_page_content fs assetsDir pageId none dl = (fs, none, 0) := by
  constructor
  · show ((((processElems pageId assetsDir dl 0 doc).2.2).foldl
        (fun f pc => f.writeFile pc.1 pc.2) (fs.ensureDir assetsDir))).dirExists assetsDir = true
    unfold FS.dirExists
    rw [foldl_writeFile_dirs]
    exact ensureDir_dirExists fs assetsDir
  · rfl

/-! ## Hierarchy walker, per-page loop (`main`, lines 304-353)

The hierarchy levels above the page loop only perform listing fetches
and directory creation; media downloads and output-file writes — the
quantities claim C2 counts — happen solely in the per-page loop, which
is modelled here over one section.  `markdownify` is modelled as a
structural rendering keeping text runs and source URLs verbatim. -/

/-- The `markdownify` collaborator, structurally: text survives, an
image renders its `src` attribute, the attachment replacement renders
as a Markdown link. -/
def renderElem : Elem → String
  | .text s => s
  | .media t => "![](" ++ t.src.getD "" ++ ")"
  | .link href label => "[" ++ label ++ "](" ++ href ++ ")"

def render (doc : List Elem) : String :=
  (doc.map renderElem).foldl (· ++ ·) ""

/-- A page as the walker sees it (`$select=id,title`). -/
structure Page where
  id : String
  title : String
deriving DecidableEq, Repr

/-- Lines 305-307: sanitized title, with the `Untitled_<id>` fallback
when the sanitized title is empty. -/
def pageFileTitle (p : Page) : String :=
  let t := sanitize_filename p.title
  if t.isEmpty then "Untitled_" ++ p.id else t

/-- Line 310: the output markdown path of a page. -/
def mdPathOf (secPath : String) (p : Page) : String :=
  secPath ++ "/" ++ pageFileTitle p ++ ".md"

/-- Lines 309-353 for one page: consult the resume decision; on
"download", run the content processor and, if it returned a document,
convert and write the output file.  Returns the filesystem, the number
of media downloads, and the number of output-file writes. -/
def walkPage (secPath : String) (contentOf : Page → Option (List Elem))
    (dl : String → Bool) (fs : FS) (p : Page) : FS × Nat × Nat :=
  if should_download fs (mdPathOf secPath p) (secPath ++ "/assets") then
    match process_page_content fs (secPath ++ "/assets") p.id (contentOf p) dl with
    | (fs1, some doc, d) => (fs1.writeFile (mdPathOf secPath p) (render doc), d, 1)
    | (fs1, none, d) => (fs1, d, 0)
  else (fs, 0, 0)

/-- The `for page in all_pages` loop over one section. -/
def walkSection (secPath : String) (contentOf : Page → Option (List Elem))
    (dl : String → Bool) : FS → List Page → FS × Nat × Nat
  | fs, [] => (fs, 0, 0)
  | fs, p :: ps =>
    let r := walkPage secPath contentOf dl fs p
    let rest := walkSection secPath contentOf dl r.1 ps
    (rest.1, r.2.1 + rest.2.1, r.2.2 + rest.2.2)

/-! ### C2 — second-run behaviour -/

theorem fileContent_writeFile (fs : FS) (p c q : String) :
    (fs.writeFile p c).fileContent q = if p = q then some c else fs.fileContent q := by
  unfold FS.writeFile FS.fileContent
  by_cases h : p = q
  · rw [if_pos h]
    rw [List.find?_cons_of_pos _ (by simpa using h)]
    rfl
  · rw [if_neg h]
    rw [List.find?_cons_of_neg _ (by simpa using h)]

/-- A page's output is in the state the walker skips: the markdown file
exists with content free of `graph.microsoft.com`, and the assets
directory exists. -/
def skipReady (fs : FS) (mdPath assetsDir : String) : Prop :=
  (∃ c, fs.fileContent mdPath = some c ∧ strContains c graphHost = false) ∧
    fs.dirExists assetsDir = true

theorem should_download_eq_false_iff (fs : FS) (mdPath assetsDir : String) :
    should_download fs mdPath assetsDir = false ↔ skipReady fs mdPath assetsDir := by
  unfold should_download skipReady
  cases h : fs.fileContent mdPath with
  | none => simp
  | some content =>
    by_cases hg : strContains content graphHost <;>
      by_cases hd : fs.dirExists assetsDir <;> simp [hg, hd]

theorem skipReady_writeFile (fs : FS) (m a p c : String)
    (hc : strContains c graphHost = false) (h : skipReady fs m a) :
    skipReady (fs.writeFile p c) m a := by
  obtain ⟨⟨c0, hc0, hclean⟩, hd⟩ := h
  refine ⟨?_, hd⟩
  rw [fileContent_writeFile]
  by_cases hpm : p = m
  · exact ⟨c, by rw [if_pos hpm], hc⟩
  · exact ⟨c0, by rw [if_neg hpm]; exact hc0, hclean⟩

theorem dirExists_ensureDir (fs : FS) (d a : String) (h : fs.dirExists a = true) :
    (fs.ensureDir d).dirExists a = true := by
  unfold FS.ensureDir
  by_cases hd : fs.dirExists d
  · rwa [if_pos hd]
  · rw [if_neg hd]
    simp only [FS.dirExists, decide_eq_true_eq] at h ⊢
    exact List.mem_cons_of_mem _ h

theorem fileContent_ensureDir (fs : FS) (d q : String) :
    (fs.ensureDir d).fileContent q = fs.fileContent q := by
  unfold FS.ensureDir
  by_cases hd : fs.dirExists d
  · rw [if_pos hd]
  · rw [if_neg hd]; rfl

theorem skipReady_ensureDir (fs : FS) (m a d : String) (h : skipReady fs m a) :
    skipReady (fs.ensureDir d) m a := by
  obtain ⟨⟨c0, hc0, hclean⟩, hd⟩ := h
  exact ⟨⟨c0, by rw [fileContent_ensureDir]; exact hc0, hclean⟩,
    dirExists_ensureDir fs d a hd⟩

theorem skipReady_foldl_writes (l : List (String × String)) :
    ∀ (fs : FS) (m a : String),
      (∀ pc ∈ l, strContains pc.2 graphHost = false) →
      skipReady fs m a →
      skipReady (l.foldl (fun f pc => f.writeFile pc.1 pc.2) fs) m a := by
  induction l with
  | nil => intro fs m a _ h; exact h
  | cons pc l ih =>
    intro fs m a hcl h
    rw [List.foldl_cons]
    exact ih _ m a (fun q hq => hcl q (List.mem_cons_of_mem _ hq))
      (skipReady_writeFile fs m a pc.1 pc.2 (hcl pc (List.mem_cons_self _ _)) h)

theorem binaryBlob_clean : strContains binaryBlob graphHost = false := by decide

theorem processTag_writes_blob (pageId assetsDir : String) (dl : String → Bool)
    (idx : Nat) (t : MediaTag) :
    ∀ pc ∈ (processTag pageId assetsDir dl idx t).2.2, pc.2 = binaryBlob := by
  unfold processTag
  cases usableSrc t with
  | none => simp
  | some src =>
    by_cases hdl : dl src
    · by_cases hat : isAttachment t
      · simp [hdl, hat]
      · by_cases himg : t.isImg <;> simp [hdl, hat, himg]
    · simp [hdl]

theorem processElems_writes_blob (pageId assetsDir : String) (dl : String → Bool) :
    ∀ (doc : List Elem) (idx : Nat),
      ∀ pc ∈ (processElems pageId assetsDir dl idx doc).2.2, pc.2 = binaryBlob := by
  intro doc
  induction doc with
  | nil => intro idx pc h; simp [processElems] at h
  | cons e es ih =>
    intro idx pc h
    cases e with
    | media t =>
      simp only [processElems, List.mem_append] at h
      rcases h with h | h
      · exact processTag_writes_blob pageId assetsDir dl idx t pc h
      · exact ih (idx + 1) pc h
    | text s =>
      simp only [processElems] at h
      exact ih idx pc h
    | link href label =>
      simp only [processElems] at h
      exact ih idx pc h

/-- After `walkPage`, the page itself is in the skip-ready state,
provided its content retrieval succeeds and its processed, rendered
output contains no `graph.microsoft.com`. -/
theorem walkPage_establishes (secPath : String) (contentOf : Page → Option (List Elem))
    (dl : String → Bool) (fs : FS) (p : Page) (doc : List Elem)
    (hc : contentOf p = some doc)
    (hg : strContains (render (processElems p.id (secPath ++ "/assets") dl 0 doc).1)
      graphHost = false) :
    skipReady (walkPage secPath contentOf dl fs p).1
      (mdPathOf secPath p) (secPath ++ "/assets") := by
  by_cases hsd : should_download fs (mdPathOf secPath p) (secPath ++ "/assets")
  · simp only [walkPage, hsd, if_true, hc, process_page_content]
    constructor
    · refine ⟨render (processElems p.id (secPath ++ "/assets") dl 0 doc).1, ?_, hg⟩
      rw [fileContent_writeFile, if_pos rfl]
    · show ((((processElems p.id (secPath ++ "/assets") dl 0 doc).2.2).foldl
          (fun f pc => f.writeFile pc.1 pc.2) (fs.ensureDir (secPath ++ "/assets")))).dirExists
          (secPath ++ "/assets") = true
      unfold FS.dirExists
      rw [foldl_writeFile_dirs]
      exact ensureDir_dirExists fs (secPath ++ "/assets")
  · simp only [walkPage, hsd]
    simp only [Bool.false_eq_true, if_false]
    exact (should_download_eq_false_iff fs _ _).mp (by simpa using hsd)

/-- The step `walkPage` keeps any skip-ready page skip-ready: it only writes
downloaded asset bytes and (on re-synchronization) markdown output
whose rendered content is clean. -/
theorem walkPage_preserves (secPath : String) (contentOf : Page → Option (List Elem))
    (dl : String → Bool) (fs : FS) (p : Page) (m a : String)
    (hg : ∀ doc, contentOf p = some doc →
      strContains (render (processElems p.id (secPath ++ "/assets") dl 0 doc).1)
        graphHost = false)
    (h : skipReady fs m a) :
    skipReady (walkPage secPath contentOf dl fs p).1 m a := by
  by_cases hsd : should_download fs (mdPathOf secPath p) (secPath ++ "/assets")
  · cases hc : contentOf p with
    | none =>
      simp only [walkPage, hsd, if_true, hc, process_page_content]
      exact h
    | some doc =>
      simp only [walkPage, hsd, if_true, hc, process_page_content]
      apply skipReady_writeFile _ _ _ _ _ (hg doc hc)
      apply skipReady_foldl_writes _ _ m a ?_ (skipReady_ensureDir fs m a _ h)
      intro pc hpc
      rw [processElems_writes_blob p.id (secPath ++ "/assets") dl doc 0 pc hpc]
      exact binaryBlob_clean
  · simp only [walkPage, hsd]
    simp only [Bool.false_eq_true, if_false]
    exact h

theorem walkSection_preserves (secPath : String) (contentOf : Page → Option (List Elem))
    (dl : String → Bool) :
    ∀ (ps : List Page) (fs : FS) (m a : String),
      (∀ p ∈ ps, ∀ doc, contentOf p = some doc →
        strContains (render (processElems p.id (secPath ++ "/assets") dl 0 doc).1)
          graphHost = false) →
      skipReady fs m a →
      skipReady (walkSection secPath contentOf dl fs ps).1 m a := by
  intro ps
  induction ps with
  | nil => intro fs m a _ h; exact h
  | cons q qs ih =>
    intro fs m a hg h
    simp only [walkSection]
    exact ih _ m a (fun r hr => hg r (List.mem_cons_of_mem _ hr))
      (walkPage_preserves secPath contentOf dl fs q m a
        (hg q (List.mem_cons_self _ _)) h)

theorem walkSection_establishes (secPath : String) (contentOf : Page → Option (List Elem))
    (dl : String → Bool) :
    ∀ (ps : List Page) (fs : FS),
      (∀ p ∈ ps, (contentOf p).isSome = true) →
      (∀ p ∈ ps, ∀ doc, contentOf p = some doc →
        strContains (render (processElems p.id (secPath ++ "/assets") dl 0 doc).1)
          graphHost = false) →
      ∀ p ∈ ps, skipReady (walkSection secPath contentOf dl fs ps).1
        (mdPathOf secPath p) (secPath ++ "/assets") := by
  intro ps
  induction ps with
  | nil => intro fs _ _ p hp; simp at hp
  | cons q qs ih =>
    intro fs hc hg p hp
    simp only [walkSection]
    rcases List.mem_cons.mp hp with rfl | hp'
    · apply walkSection_preserves secPath contentOf dl qs _ _ _
        (fun r hr => hg r (List.mem_cons_of_mem _ hr))
      obtain ⟨doc, hdoc⟩ := Option.isSome_iff_exists.mp (hc p (List.mem_cons_self _ _))
      exact walkPage_establishes secPath contentOf dl fs p doc hdoc
        (hg p (List.mem_cons_self _ _) doc hdoc)
    · exact ih _ (fun r hr => hc r (List.mem_cons_of_mem _ hr))
        (fun r hr => hg r (List.mem_cons_of_mem _ hr)) p hp'

theorem walkSection_skips (secPath : String) (contentOf : Page → Option (List Elem))
    (dl : String → Bool) :
    ∀ (ps : List Page) (fs : FS),
      (∀ p ∈ ps, skipReady fs (mdPathOf secPath p) (secPath ++ "/assets")) →
      walkSection secPath contentOf dl fs ps = (fs, 0, 0) := by
  intro ps
  induction ps with
  | nil => intro fs _; rfl
  | cons q qs ih =>
    intro fs hall
    have hq : should_download fs (mdPathOf secPath q) (secPath ++ "/assets") = false :=
      (should_download_eq_false_iff _ _ _).mpr (hall q (List.mem_cons_self _ _))
    simp only [walkSection, walkPage, hq]
    simp only [Bool.false_eq_true, if_false]
    rw [ih fs (fun r hr => hall r (List.mem_cons_of_mem _ hr))]
    rfl

theorem specClassify_synced_of_skipReady (fs : FS) (m a : String)
    (h : skipReady fs m a) :
    specClassify (fs.fileContent m) (fs.dirExists a) = .synced := by
  obtain ⟨⟨c, hc, hclean⟩, hd⟩ := h
  rw [hc]
  simp [specClassify, hd, hclean]

/-- C2 counterexample: one page whose (unchanged) remote content is the
plain text "see graph.microsoft.com" and no media at all.  The first
run completes without interruption and writes the page; on the second
run the saved file still contains the substring `graph.microsoft.com`,
so the walker re-synchronizes and performs one output-file write — not
zero, contradicting the claim. -/
theorem second_run_rewrites_cex :
    (walkSection "S" (fun _ => some [.text "see graph.microsoft.com"]) (fun _ => true)
      (walkSection "S" (fun _ => some [.text "see graph.microsoft.com"]) (fun _ => true)
        ⟨[], []⟩ [⟨"p1", "Note"⟩]).1
      [⟨"p1", "Note"⟩]).2.2 = 1 := by
  decide

/-- C2 amended: running the walker a second time with unchanged remote
hierarchy and page contents, after an uninterrupted first run (every
content retrieval and every download succeeds), performs zero media
downloads and zero output-file writes, and classifies every page
Synced — PROVIDED each page's processed, converted output contains no
`graph.microsoft.com` substring (a page whose own text mentions the
remote host is re-synchronized forever, as the counterexample shows). -/
theorem second_run_idempotent (secPath : String) (contentOf : Page → Option (List Elem))
    (dl : String → Bool) (pages : List Page) (fs0 : FS)
    (hc : ∀ p ∈ pages, (contentOf p).isSome = true)
    (hd : ∀ s, dl s = true)
    (hg : ∀ p ∈ pages, ∀ doc, contentOf p = some doc →
      strContains (render (processElems p.id (secPath ++ "/assets") dl 0 doc).1)
        graphHost = false) :
    walkSection secPath contentOf dl
        (walkSection secPath contentOf dl fs0 pages).1 pages =
      ((walkSection secPath contentOf dl fs0 pages).1, 0, 0) ∧
    ∀ p ∈ pages,
      specClassify ((walkSection secPath contentOf dl fs0 pages).1.fileContent
          (mdPathOf secPath p))
        ((walkSection secPath contentOf dl fs0 pages).1.dirExists (secPath ++ "/assets")) =
        .synced := by
  have hest := walkSection_establishes secPath contentOf dl pages fs0 hc hg
  exact ⟨walkSection_skips secPath contentOf dl pages _ hest,
    fun p hp => specClassify_synced_of_skipReady _ _ _ (hest p hp)⟩

/-- Witness for C2's amended theorem: a one-page section with clean
text content — the second run leaves the filesystem untouched and does
no work. -/
theorem second_run_idempotent_witness :
    walkSection "S" (fun _ => some [.text "hello"]) (fun _ => true)
        (walkSection "S" (fun _ => some [.text "hello"]) (fun _ => true) ⟨[], []⟩
          [⟨"p1", "Note"⟩]).1 [⟨"p1", "Note"⟩] =
      ((walkSection "S" (fun _ => some [.text "hello"]) (fun _ => true) ⟨[], []⟩
        [⟨"p1", "Note"⟩]).1, 0, 0) :=
  (second_run_idempotent "S" (fun _ => some [.text "hello"]) (fun _ => true)
    [⟨"p1", "Note"⟩] ⟨[], []⟩
    (fun _ _ => rfl)
    (fun _ => rfl)
    (by
      intro p hp doc hdoc
      rw [List.mem_singleton] at hp
      subst hp
      injection hdoc with h
      subst h
      decide)).1

end OneNote
